import Mathlib

/-!
# Verification of the dynamic extension resolution subsystem

This file embeds the extension-declaration data model and the
`useResolvedExtensions`-style resolver of the console repository in Lean 4
and proves the spec's claims about them.

The two type-guard predicates (`isCreateProject`, `isCreateProjectModal`)
are translated directly from
`frontend/packages/console-dynamic-plugin-sdk/src/extensions/create-project.ts`
and `.../create-project-modal.ts`.

The resolver itself (`useResolvedExtensions` and the registry/code-loading
machinery it uses) is not present in the source tree available here — only
its re-export (`src/index.ts` of the dynamic plugin SDK) and its callers
(`useCreateProject`, the create-namespace modal) are.  Those parts are
therefore modelled from the specification, as marked on each definition.
-/

namespace ConsoleExt

/-- Values produced by resolving code references.  The host's loaded
JavaScript values are opaque to the resolver, so they are modelled by an
abstract identifier. -/
abbrev Value := Nat

/-- Errors thrown by predicates or produced by failed code loads.  Opaque
to the resolver; modelled by their message. -/
abbrev Err := String

/-- Modelled from the spec: a property of an extension declaration is
either a plain (already materialized) value or a `CodeRef`, a deferred
reference to code identified by reference identity. -/
inductive PropValue where
  | plain (v : Value)
  | codeRef (r : Nat)
deriving DecidableEq, Repr

/-- Modelled from the spec: an extension declaration — an immutable record
with a `type` tag, a `properties` mapping whose fields may be `CodeRef`s,
and a `pluginID` for provenance.  `declId` models the declaration's object
identity (the registry replaces declarations wholesale, so consumers diff
by reference). -/
structure ExtensionDeclaration where
  declId : Nat
  type : String
  properties : List (String × PropValue)
  pluginID : String
deriving DecidableEq, Repr

/-- Modelled from the spec: the resolution state of a `CodeRef` — the
tagged variant `{ state: "pending" } | { state: "resolved", value } |
{ state: "failed", error }` of the spec's design notes. -/
inductive RefState where
  | pending
  | resolvedV (v : Value)
  | failed (e : Err)
deriving DecidableEq, Repr

/-- A reference state is settled when it is no longer pending. -/
def RefState.isSettled : RefState → Bool
  | .pending => false
  | .resolvedV _ => true
  | .failed _ => true

/-- A reference state that settled successfully. -/
def RefState.isSuccess : RefState → Bool
  | .resolvedV _ => true
  | _ => false

/-- A reference state that settled with a load error. -/
def RefState.isFailed : RefState → Bool
  | .failed _ => true
  | _ => false

/-- The current resolution state of every `CodeRef`, keyed by reference
identity. -/
abbrev RefStateMap := Nat → RefState

/-- Modelled from the spec: a caller-supplied predicate over declarations.
A JavaScript predicate may throw, so it is embedded as returning either a
boolean or a thrown error. -/
abbrev Predicate := ExtensionDeclaration → Except Err Bool

/-- The `CodeRef` fields of a declaration's `properties` object, in field
order. -/
def refsOf (d : ExtensionDeclaration) : List Nat :=
  d.properties.filterMap fun kv =>
    match kv.2 with
    | .codeRef r => some r
    | .plain _ => none

/-- Modelled from the spec: the predicate scan.  Filters the registry's
declaration sequence to the matching subset (in registry order); a
declaration on which the predicate throws is treated as non-matching and
the thrown error is recorded, while the scan continues over the remaining
declarations. -/
def scan (reg : List ExtensionDeclaration) (p : Predicate) :
    List ExtensionDeclaration × List Err :=
  match reg with
  | [] => ([], [])
  | d :: ds =>
    let rest := scan ds p
    match p d with
    | .ok true => (d :: rest.1, rest.2)
    | .ok false => (rest.1, rest.2)
    | .error e => (rest.1, e :: rest.2)

/-- A resolved extension: a declaration whose `CodeRef` properties have
been replaced with their resolved values, preserving all other fields. -/
structure ResolvedExtension where
  declId : Nat
  type : String
  properties : List (String × Value)
  pluginID : String
deriving DecidableEq, Repr

/-- Resolve one property: a plain value stays; a `CodeRef` yields its
loaded value only if its resolution has settled successfully. -/
def resolveProp (st : RefStateMap) : PropValue → Option Value
  | .plain v => some v
  | .codeRef r =>
    match st r with
    | .resolvedV v => some v
    | _ => none

/-- Resolve all properties of a declaration; fails if any `CodeRef` field
is pending or failed. -/
def resolveProps (st : RefStateMap) :
    List (String × PropValue) → Option (List (String × Value))
  | [] => some []
  | (k, v) :: rest =>
    match resolveProp st v, resolveProps st rest with
    | some x, some xs => some ((k, x) :: xs)
    | _, _ => none

/-- Replace every `CodeRef` field of a matching declaration with its
resolved value; `none` when some reference is still pending or failed. -/
def resolveDecl (st : RefStateMap) (d : ExtensionDeclaration) :
    Option ResolvedExtension :=
  (resolveProps st d.properties).map fun props =>
    ⟨d.declId, d.type, props, d.pluginID⟩

/-- The load errors of a declaration's failed references, one error per
failed reference. -/
def declRefErrors (st : RefStateMap) (d : ExtensionDeclaration) : List Err :=
  (refsOf d).filterMap fun r =>
    match st r with
    | .failed e => some e
    | _ => none

/-- All of a declaration's `CodeRef` fields have completed resolution
(successfully or with an error recorded). -/
def allSettled (st : RefStateMap) (d : ExtensionDeclaration) : Bool :=
  (refsOf d).all fun r => (st r).isSettled

/-- All of a declaration's `CodeRef` fields resolved successfully. -/
def allSucceeded (st : RefStateMap) (d : ExtensionDeclaration) : Bool :=
  (refsOf d).all fun r => (st r).isSuccess

/-- The result object of the resolve operation:
`{ items, resolved, errors }`. -/
structure Result where
  items : List ResolvedExtension
  resolved : Bool
  errors : List Err
deriving DecidableEq, Repr

/-- Modelled from the spec: the resolve operation of the
`useResolvedExtensions`-equivalent resolver.  Fetches the declaration set,
filters by the predicate (recording predicate throws), replaces `CodeRef`
fields of matches with their resolved values, excludes declarations with a
failed or pending reference from `items` while appending one error per
failed reference, and reports `resolved` exactly when every matching
declaration's every reference has settled.  Total: it always returns a
result object and never raises. -/
def resolve (reg : List ExtensionDeclaration) (p : Predicate)
    (st : RefStateMap) : Result :=
  let scanned := scan reg p
  let ms := scanned.1
  let predErrors := scanned.2
  { items := ms.filterMap (resolveDecl st)
    resolved := ms.all (allSettled st)
    errors := predErrors ++ ms.flatMap (declRefErrors st) }

/-!
## Type-guard predicates (translated from the source)

From `console-dynamic-plugin-sdk/src/extensions/create-project.ts`:
`export const isCreateProject = (e) => e.type === 'console.create-project';`

From `console-dynamic-plugin-sdk/src/extensions/create-project-modal.ts`:
`export const isCreateProjectModal = (e) => e.type === 'console.create-project-modal';`
-/

/-- `isCreateProject` from `extensions/create-project.ts`. -/
def isCreateProject (e : ExtensionDeclaration) : Bool :=
  e.type == "console.create-project"

/-- `isCreateProjectModal` from `extensions/create-project-modal.ts`. -/
def isCreateProjectModal (e : ExtensionDeclaration) : Bool :=
  e.type == "console.create-project-modal"

/-!
## Identity-preserving result assembly (memoization layer)

Modelled from the spec's design notes: the resolver keeps a
previous-result cache and reuses the previous `items` array reference
whenever the newly computed contents are shallow-equal (element-wise
identity and array length) to the previous contents.  JavaScript array
reference identity is modelled with an allocation `tag`. -/

/-- Modelled from the spec: an `items` array together with its reference
identity (`tag` models the JavaScript array's object identity). -/
structure ItemsArray where
  tag : Nat
  data : List ResolvedExtension
deriving DecidableEq, Repr

/-- Modelled from the spec: shallow comparison of two `items` contents —
element-wise identity and array length. -/
def shallowEqual (a b : List ResolvedExtension) : Bool :=
  a == b

/-- Modelled from the spec: the identity-preserving assembly step.  If the
newly computed contents are shallow-equal to the previous array's
contents, the previous array reference is returned; otherwise a fresh
array (`fresh` models the new allocation's identity) holding the new
contents is returned. -/
def memoStep (prev : ItemsArray) (newData : List ResolvedExtension)
    (fresh : Nat) : ItemsArray :=
  if shallowEqual prev.data newData then prev else ⟨fresh, newData⟩

/-!
## Process-wide `CodeRef` resolution cache

Modelled from the spec: resolution tasks live in a process-wide cache
keyed by reference identity; "check cache, else start load" is one atomic
step of the event loop.  `loadsTriggered` counts invocations of the
underlying code-loading service. -/

/-- Modelled from the spec: the process-wide resolution-task cache.
`entries` maps a `CodeRef`'s identity to its resolution task's identity;
`nextTask` is the next fresh task identity; `loadsTriggered` counts how
many underlying loads have been started. -/
structure LoadCache where
  entries : List (Nat × Nat)
  nextTask : Nat
  loadsTriggered : Nat
deriving DecidableEq, Repr

/-- Look up the cached resolution task for a reference, if any. -/
def LoadCache.lookup (c : LoadCache) (r : Nat) : Option Nat :=
  (c.entries.find? fun kv => kv.1 == r).map fun kv => kv.2

/-- Modelled from the spec: resolve a `CodeRef` against the cache — look
up or create its resolution task in one atomic step.  A cache hit returns
the existing task without touching the cache; a miss inserts a fresh task
and triggers the underlying load exactly once. -/
def resolveCodeRef (c : LoadCache) (r : Nat) : LoadCache × Nat :=
  match c.lookup r with
  | some t => (c, t)
  | none =>
    (⟨(r, c.nextTask) :: c.entries, c.nextTask + 1, c.loadsTriggered + 1⟩,
      c.nextTask)

/-!
## Event-driven re-evaluation

Modelled from the spec: the resolver re-evaluates whenever the registry
emits a change or an outstanding reference resolution settles, always
recomputing against the current registry snapshot and discarding results
computed against a superseded one. -/

/-- Modelled from the spec: an event the resolver reacts to — the registry
replacing its declaration set wholesale, or one outstanding `CodeRef`
resolution settling (successfully or with an error). -/
inductive Event where
  | replace (newReg : List ExtensionDeclaration)
  | settle (r : Nat) (outcome : RefState)
deriving Repr

/-- The resolver's live state: the current registry snapshot, the
resolution state of every reference, and the last result delivered to
consumers. -/
structure ResolverState where
  reg : List ExtensionDeclaration
  st : RefStateMap
  out : Result

/-- Modelled from the spec: apply one event.  Either event replaces the
relevant input and recomputes the delivered result from the *current*
registry snapshot; results computed against a superseded snapshot are
discarded, never delivered. -/
def applyEvent (p : Predicate) (s : ResolverState) (e : Event) :
    ResolverState :=
  match e with
  | .replace newReg =>
    { reg := newReg, st := s.st, out := resolve newReg p s.st }
  | .settle r o =>
    let st' : RefStateMap := fun x => if x = r then o else s.st x
    { reg := s.reg, st := st', out := resolve s.reg p st' }

/-- Run the resolver over a sequence of events. -/
def runEvents (p : Predicate) (s : ResolverState) :
    List Event → ResolverState
  | [] => s
  | e :: es => runEvents p (applyEvent p s e) es

/-- Settled reference states are terminal: a later state map agrees with
the earlier one on every reference that had already settled. -/
def Progress (st st' : RefStateMap) : Prop :=
  ∀ r, (st r).isSettled = true → st' r = st r

/-!
## Concrete fixtures

Small concrete registries, predicates and reference-state maps used to
evaluate the theorems on explicit inputs. -/

/-- A declaration of type `x` whose single `CodeRef` (identity 0) resolves. -/
def wDeclA : ExtensionDeclaration := ⟨0, "x", [("f", .codeRef 0)], "pA"⟩

/-- A declaration of type `y` with no `CodeRef` fields. -/
def wDeclB : ExtensionDeclaration := ⟨1, "y", [], "pB"⟩

/-- A declaration of type `x` whose single `CodeRef` (identity 1) fails. -/
def wDeclC : ExtensionDeclaration := ⟨2, "x", [("g", .codeRef 1)], "pC"⟩

/-- A second succeeding declaration of type `x`, sharing `CodeRef` 0 with
`wDeclA`. -/
def wDeclD : ExtensionDeclaration := ⟨3, "x", [("h", .codeRef 0)], "pD"⟩

/-- A declaration of type `y`, used as registry filler. -/
def wDeclE : ExtensionDeclaration := ⟨4, "y", [], "pE"⟩

/-- Predicate matching declarations of type `x`. -/
def wPredX : Predicate := fun d => .ok (d.type == "x")

/-- Predicate that matches nothing. -/
def wPredFalse : Predicate := fun _ => .ok false

/-- Predicate that throws on the declaration with identity 0 and otherwise
matches type `x`. -/
def wPredThrow0 : Predicate := fun d =>
  if d.declId == 0 then .error "boom" else .ok (d.type == "x")

/-- Predicate that throws on the declaration with identity 2 and otherwise
matches type `x`. -/
def wPredThrow2 : Predicate := fun d =>
  if d.declId == 2 then .error "boom" else .ok (d.type == "x")

/-- Reference states: `CodeRef` 0 resolved to value 7, every other
reference failed with a load error. -/
def wStMixed : RefStateMap := fun r =>
  if r == 0 then .resolvedV 7 else .failed "load failed"

/-- Reference states: every reference resolved to value 7. -/
def wStAllOk : RefStateMap := fun _ => .resolvedV 7

/-- A previously delivered empty `items` array with identity 0. -/
def wPrev : ItemsArray := ⟨0, []⟩

/-- An initial resolver state over an empty registry with all references
pending, its delivered output computed from that snapshot. -/
def wS0 : ResolverState :=
  ⟨[], fun _ => .pending, resolve [] wPredX (fun _ => .pending)⟩

/-- An event trace: the registry replaces its declaration set while
reference 0 is still pending, then reference 0 settles. -/
def wEvents : List Event :=
  [.replace [wDeclA, wDeclB], .settle 0 (.resolvedV 7)]

/-! ## Helper lemmas -/

theorem scan_fst_sublist (reg : List ExtensionDeclaration) (p : Predicate) :
    List.Sublist (scan reg p).1 reg := by
  induction reg with
  | nil => simp [scan]
  | cons d ds ih =>
    simp only [scan]
    cases h : p d with
    | ok b =>
      cases b
      · exact ih.cons d
      · exact ih.cons₂ d
    | error e => exact ih.cons d

theorem mem_scan_fst {reg : List ExtensionDeclaration} {p : Predicate}
    {d : ExtensionDeclaration} :
    d ∈ (scan reg p).1 ↔ d ∈ reg ∧ p d = .ok true := by
  induction reg with
  | nil => simp [scan]
  | cons a ds ih =>
    simp only [scan]
    cases h : p a with
    | ok b =>
      cases b
      · rw [ih]
        simp only [List.mem_cons]
        constructor
        · rintro ⟨hm, hp⟩; exact ⟨Or.inr hm, hp⟩
        · rintro ⟨rfl | hm, hp⟩
          · rw [h] at hp; simp at hp
          · exact ⟨hm, hp⟩
      · constructor
        · intro hm
          rcases List.mem_cons.mp hm with rfl | hm'
          · exact ⟨List.mem_cons_self _ _, h⟩
          · obtain ⟨hm'', hp⟩ := ih.mp hm'
            exact ⟨List.mem_cons_of_mem _ hm'', hp⟩
        · rintro ⟨hm, hp⟩
          rcases List.mem_cons.mp hm with rfl | hm'
          · exact List.mem_cons_self _ _
          · exact List.mem_cons_of_mem _ (ih.mpr ⟨hm', hp⟩)
    | error e =>
      rw [ih]
      simp only [List.mem_cons]
      constructor
      · rintro ⟨hm, hp⟩; exact ⟨Or.inr hm, hp⟩
      · rintro ⟨rfl | hm, hp⟩
        · rw [h] at hp; simp at hp
        · exact ⟨hm, hp⟩

theorem mem_scan_snd {reg : List ExtensionDeclaration} {p : Predicate}
    {d : ExtensionDeclaration} {e : Err} (hm : d ∈ reg)
    (hp : p d = .error e) : e ∈ (scan reg p).2 := by
  induction reg with
  | nil => cases hm
  | cons a ds ih =>
    simp only [scan]
    rcases List.mem_cons.mp hm with rfl | hm'
    · rw [hp]; exact List.mem_cons_self e _
    · cases h : p a with
      | ok b => cases b <;> exact ih hm'
      | error e' => exact List.mem_cons_of_mem e' (ih hm')

theorem scan_append (l₁ l₂ : List ExtensionDeclaration) (p : Predicate) :
    scan (l₁ ++ l₂) p =
      ((scan l₁ p).1 ++ (scan l₂ p).1, (scan l₁ p).2 ++ (scan l₂ p).2) := by
  induction l₁ with
  | nil => simp [scan]
  | cons d ds ih =>
    simp only [List.cons_append, scan]
    cases h : p d with
    | ok b => cases b <;> simp [ih, Prod.ext_iff]
    | error e => simp [ih, Prod.ext_iff]

theorem scan_cons_error {p : Predicate} {d : ExtensionDeclaration} {e : Err}
    (h : p d = .error e) (ds : List ExtensionDeclaration) :
    scan (d :: ds) p = ((scan ds p).1, e :: (scan ds p).2) := by
  simp only [scan, h]

theorem resolveProps_isSome (st : RefStateMap) :
    ∀ props : List (String × PropValue),
      (resolveProps st props).isSome =
        (props.filterMap fun kv =>
          match kv.2 with
          | .codeRef r => some r
          | .plain _ => none).all fun r => (st r).isSuccess := by
  intro props
  induction props with
  | nil => simp [resolveProps]
  | cons kv rest ih =>
    obtain ⟨k, v⟩ := kv
    cases v with
    | plain w =>
      simp only [resolveProps, resolveProp, List.filterMap_cons]
      cases hrest : resolveProps st rest with
      | none => simpa [hrest] using ih
      | some xs => simpa [hrest] using ih
    | codeRef r =>
      simp only [resolveProps, resolveProp, List.filterMap_cons, List.all_cons]
      cases hr : st r with
      | pending => simp [RefState.isSuccess]
      | failed e => simp [RefState.isSuccess]
      | resolvedV v =>
        simp only [RefState.isSuccess, Bool.true_and]
        cases hrest : resolveProps st rest with
        | none => simpa [hrest] using ih
        | some xs => simpa [hrest] using ih

theorem allSucceeded_iff_isSome (st : RefStateMap)
    (d : ExtensionDeclaration) :
    allSucceeded st d = (resolveDecl st d).isSome := by
  have h := resolveProps_isSome st d.properties
  rw [allSucceeded, refsOf, ← h, resolveDecl]
  cases resolveProps st d.properties <;> rfl

theorem resolveDecl_declId {st : RefStateMap} {d : ExtensionDeclaration}
    {x : ResolvedExtension} (h : resolveDecl st d = some x) :
    x.declId = d.declId := by
  rw [resolveDecl] at h
  cases hp : resolveProps st d.properties with
  | none => rw [hp] at h; cases h
  | some props => rw [hp] at h; cases h; rfl

theorem items_declIds (st : RefStateMap) :
    ∀ ms : List ExtensionDeclaration,
      (ms.filterMap (resolveDecl st)).map (fun x => x.declId) =
        (ms.filter (allSucceeded st)).map (fun d => d.declId) := by
  intro ms
  induction ms with
  | nil => simp
  | cons d ds ih =>
    by_cases h : allSucceeded st d = true
    · have hs : (resolveDecl st d).isSome := by
        rw [← allSucceeded_iff_isSome]; exact h
      obtain ⟨x, hx⟩ := Option.isSome_iff_exists.mp hs
      simp [List.filterMap_cons, hx, List.filter_cons, h, ih,
        resolveDecl_declId hx]
    · have hn : resolveDecl st d = none := by
        cases hd : resolveDecl st d with
        | none => rfl
        | some x =>
          exact absurd ((allSucceeded_iff_isSome st d).trans
            (by rw [hd]; rfl)) h
      simp [List.filterMap_cons, hn, List.filter_cons, h, ih]

theorem declIds_sublist (st : RefStateMap) (ms : List ExtensionDeclaration) :
    List.Sublist ((ms.filterMap (resolveDecl st)).map fun x => x.declId)
      (ms.map fun d => d.declId) := by
  rw [items_declIds]
  exact (List.filter_sublist ms).map fun d => d.declId

theorem declRefErrors_length (st : RefStateMap) (d : ExtensionDeclaration) :
    (declRefErrors st d).length =
      (refsOf d).countP fun r => (st r).isFailed := by
  rw [declRefErrors]
  induction refsOf d with
  | nil => simp
  | cons r rs ih =>
    cases hr : st r with
    | pending => simpa [List.filterMap_cons, hr, RefState.isFailed,
        List.countP_cons] using ih
    | resolvedV v => simpa [List.filterMap_cons, hr, RefState.isFailed,
        List.countP_cons] using ih
    | failed e => simpa [List.filterMap_cons, hr, RefState.isFailed,
        List.countP_cons] using ih

theorem mem_declRefErrors {st : RefStateMap} {d : ExtensionDeclaration}
    {r : Nat} {e : Err} (hr : r ∈ refsOf d) (hf : st r = .failed e) :
    e ∈ declRefErrors st d := by
  rw [declRefErrors]
  exact List.mem_filterMap.mpr ⟨r, hr, by rw [hf]⟩

theorem mem_items_of_resolve {reg : List ExtensionDeclaration}
    {p : Predicate} {st : RefStateMap} {x : ResolvedExtension}
    (h : x ∈ (resolve reg p st).items) :
    ∃ d ∈ reg, resolveDecl st d = some x := by
  simp only [resolve] at h
  obtain ⟨d, hd, hx⟩ := List.mem_filterMap.mp h
  exact ⟨d, (scan_fst_sublist reg p).subset hd, hx⟩

theorem scan_none_matching {reg : List ExtensionDeclaration} {p : Predicate}
    (h : ∀ d ∈ reg, p d = .ok false) : scan reg p = ([], []) := by
  induction reg with
  | nil => rfl
  | cons d ds ih =>
    simp only [scan, h d (List.mem_cons_self d ds)]
    rw [ih fun d' hd' => h d' (List.mem_cons_of_mem d hd')]

/-! ## Claim theorems -/

/-- C1: for every predicate and registry state, the resolve operation is a
total function returning a `{ items, resolved, errors }` result object (it
never raises, by the very type of `resolve`), and every error arising
during the scan (a predicate throw) or during reference resolution (a
failed `CodeRef` of a matching declaration) is appended to the `errors`
list of the returned object. -/
theorem resolve_collects_all_errors (reg : List ExtensionDeclaration)
    (p : Predicate) (st : RefStateMap) :
    (∀ d ∈ reg, ∀ e : Err, p d = .error e → e ∈ (resolve reg p st).errors) ∧
    (∀ d ∈ (scan reg p).1, ∀ r ∈ refsOf d, ∀ e : Err,
      st r = .failed e → e ∈ (resolve reg p st).errors) := by
  constructor
  · intro d hd e hp
    simp only [resolve]
    exact List.mem_append.mpr (Or.inl (mem_scan_snd hd hp))
  · intro d hd r hr e hf
    simp only [resolve]
    exact List.mem_append.mpr
      (Or.inr (List.mem_flatMap.mpr ⟨d, hd, mem_declRefErrors hr hf⟩))

/-- Witness for C1 on a concrete registry: the predicate throws on one
declaration and a matching declaration's reference failed; both errors are
found in the returned `errors` list. -/
theorem resolve_collects_all_errors_witness :
    "boom" ∈ (resolve [wDeclA, wDeclC] wPredThrow0 wStMixed).errors ∧
    "load failed" ∈ (resolve [wDeclA, wDeclC] wPredThrow0 wStMixed).errors := by
  obtain ⟨h1, h2⟩ := resolve_collects_all_errors [wDeclA, wDeclC] wPredThrow0 wStMixed
  exact ⟨h1 wDeclA (by decide) "boom" rfl,
    h2 wDeclC (by decide) 1 (by decide) "load failed" rfl⟩

/-- C2: resolving against a registry with zero declarations, or with a
predicate that matches no declaration, returns exactly
`{ items := [], resolved := true, errors := [] }` — and it does so for
*every* reference-state map, so the result never passes through a state
where `resolved` is false. -/
theorem resolve_empty_fast_path (reg : List ExtensionDeclaration)
    (p : Predicate) (st : RefStateMap)
    (h : reg = [] ∨ ∀ d ∈ reg, p d = .ok false) :
    resolve reg p st = ⟨[], true, []⟩ := by
  have hscan : scan reg p = ([], []) := by
    rcases h with rfl | h
    · rfl
    · exact scan_none_matching h
  simp [resolve, hscan]

/-- Witness for C2: a nonempty registry with a predicate matching nothing
returns the empty, already-resolved result. -/
theorem resolve_empty_fast_path_witness :
    resolve [wDeclB] wPredFalse wStMixed = ⟨[], true, []⟩ :=
  resolve_empty_fast_path [wDeclB] wPredFalse wStMixed (Or.inr fun _ _ => rfl)

/-- C4: the `resolved` flag is true iff every `CodeRef` field of every
matching declaration has settled (successfully or with an error recorded)
— the criterion depends only on which references have settled, not on the
order in which they settled — and `resolved` is monotone under progress of
the reference states (settled states being terminal), so once true for a
given snapshot it stays true. -/
theorem resolve_resolved_iff_all_settled (reg : List ExtensionDeclaration)
    (p : Predicate) (st st' : RefStateMap) :
    ((resolve reg p st).resolved = true ↔
      ∀ d ∈ (scan reg p).1, ∀ r ∈ refsOf d, (st r).isSettled = true) ∧
    (Progress st st' → (resolve reg p st).resolved = true →
      (resolve reg p st').resolved = true) := by
  have key : ∀ s : RefStateMap, (resolve reg p s).resolved = true ↔
      ∀ d ∈ (scan reg p).1, ∀ r ∈ refsOf d, (s r).isSettled = true := by
    intro s
    simp [resolve, allSettled, List.all_eq_true]
  refine ⟨key st, fun hprog h => ?_⟩
  refine (key st').mpr fun d hd r hr => ?_
  have hs := (key st).mp h d hd r hr
  rw [hprog r hs]
  exact hs

/-- Witness for C4: with every reference of the single matching
declaration already settled, `resolved` is true and stays true under the
(reflexive) progress relation. -/
theorem resolve_resolved_iff_all_settled_witness :
    (resolve [wDeclA] wPredX wStAllOk).resolved = true :=
  (resolve_resolved_iff_all_settled [wDeclA] wPredX wStAllOk wStAllOk).2
    (fun _ _ => rfl)
    ((resolve_resolved_iff_all_settled [wDeclA] wPredX wStAllOk wStAllOk).1.mpr
      (by decide))

/-- C7: the matching subset preserves the registry's declaration order:
the scan result is a sublist (order-stable subsequence, no other sort key)
of the registry sequence, and so is the returned `items` sequence viewed
through the declarations it came from. -/
theorem resolve_preserves_registry_order (reg : List ExtensionDeclaration)
    (p : Predicate) (st : RefStateMap) :
    List.Sublist (scan reg p).1 reg ∧
    List.Sublist ((resolve reg p st).items.map fun x => x.declId)
      (reg.map fun d => d.declId) := by
  refine ⟨scan_fst_sublist reg p, ?_⟩
  have h1 := declIds_sublist st (scan reg p).1
  have h2 := (scan_fst_sublist reg p).map fun d => d.declId
  simp only [resolve]
  exact h1.trans h2

/-- C3: when every matching declaration's references have settled, the
`items` sequence consists exactly of the matching declarations all of
whose references resolved successfully (failed declarations excluded,
succeeding siblings retained, in order), the `errors` list carries exactly
one entry per failed reference (on top of any predicate-scan errors), and
`resolved` is true. -/
theorem resolve_partial_failure_isolation (reg : List ExtensionDeclaration)
    (p : Predicate) (st : RefStateMap)
    (hsettled : ∀ d ∈ (scan reg p).1, allSettled st d = true) :
    ((resolve reg p st).items.map fun x => x.declId) =
      (((scan reg p).1.filter (allSucceeded st)).map fun d => d.declId) ∧
    (resolve reg p st).errors.length =
      (scan reg p).2.length +
        ((scan reg p).1.map fun d =>
          (refsOf d).countP fun r => (st r).isFailed).sum ∧
    (resolve reg p st).resolved = true := by
  refine ⟨?_, ?_, ?_⟩
  · simp only [resolve]
    exact items_declIds st (scan reg p).1
  · simp only [resolve, List.length_append]
    congr 1
    rw [List.length_flatMap]
    exact congrArg List.sum
      (List.map_congr_left fun d _ => declRefErrors_length st d)
  · simp only [resolve]
    exact List.all_eq_true.mpr hsettled

/-- Witness for C3: three matching declarations of which one's reference
rejects — `items` holds the two succeeding declarations, one error per
failed reference is recorded, and `resolved` is true. -/
theorem resolve_partial_failure_isolation_witness :
    ((resolve [wDeclA, wDeclD, wDeclC] wPredX wStMixed).items.map
        fun x => x.declId) =
      (((scan [wDeclA, wDeclD, wDeclC] wPredX).1.filter
          (allSucceeded wStMixed)).map fun d => d.declId) ∧
    (resolve [wDeclA, wDeclD, wDeclC] wPredX wStMixed).errors.length =
      (scan [wDeclA, wDeclD, wDeclC] wPredX).2.length +
        (((scan [wDeclA, wDeclD, wDeclC] wPredX).1.map fun d =>
          (refsOf d).countP fun r => (wStMixed r).isFailed).sum) ∧
    (resolve [wDeclA, wDeclD, wDeclC] wPredX wStMixed).resolved = true :=
  resolve_partial_failure_isolation [wDeclA, wDeclD, wDeclC] wPredX wStMixed
    (by decide)

/-- C5: the identity-preserving assembly of the resolver's `items`: a
second call over an unchanged registry, predicate and reference state
returns the exact same array reference as the first (`memoStep` is
stable), and when the newly computed contents are not shallow-equal to the
previous contents, a fresh array reference holding the new contents is
returned. -/
theorem resolve_items_identity_stability (reg : List ExtensionDeclaration)
    (p : Predicate) (st : RefStateMap) (prev : ItemsArray) (f₁ f₂ f₃ : Nat) :
    memoStep (memoStep prev ((resolve reg p st).items) f₁)
        ((resolve reg p st).items) f₂ =
      memoStep prev ((resolve reg p st).items) f₁ ∧
    (shallowEqual prev.data ((resolve reg p st).items) = false →
      memoStep prev ((resolve reg p st).items) f₃ =
        ⟨f₃, (resolve reg p st).items⟩) := by
  constructor
  · by_cases h : shallowEqual prev.data ((resolve reg p st).items) = true
    · simp [memoStep, h]
    · have h' : shallowEqual prev.data ((resolve reg p st).items) = false := by
        simpa using h
      have hdd : shallowEqual ((resolve reg p st).items)
          ((resolve reg p st).items) = true := by
        simp [shallowEqual]
      simp [memoStep, h', hdd]
  · intro h
    simp [memoStep, h]

/-- Witness for C5: the previous empty array is not shallow-equal to the
newly computed one-element `items`, so a fresh array with the new contents
is returned. -/
theorem resolve_items_identity_stability_witness :
    memoStep wPrev ((resolve [wDeclA] wPredX wStMixed).items) 1 =
      ⟨1, (resolve [wDeclA] wPredX wStMixed).items⟩ :=
  (resolve_items_identity_stability [wDeclA] wPredX wStMixed wPrev 1 2 1).2
    (by decide)

/-- C6: `CodeRef` resolution through the process-wide cache is idempotent
and memoized: resolving the same reference a second time leaves the cache
unchanged and returns the very same resolution task (so all resolvers —
including declarations of different plugins sharing the reference —
observe the same settled value), and a single resolution triggers the
underlying load at most once. -/
theorem resolveCodeRef_idempotent_memoized (c : LoadCache) (r : Nat) :
    resolveCodeRef (resolveCodeRef c r).1 r = resolveCodeRef c r ∧
    (resolveCodeRef c r).1.loadsTriggered ≤ c.loadsTriggered + 1 := by
  cases h : c.lookup r with
  | some t =>
    constructor
    · simp [resolveCodeRef, h]
    · simp [resolveCodeRef, h]
  | none =>
    have hlook : ((⟨(r, c.nextTask) :: c.entries, c.nextTask + 1,
        c.loadsTriggered + 1⟩ : LoadCache)).lookup r = some c.nextTask := by
      simp [LoadCache.lookup, List.find?]
    constructor
    · simp [resolveCodeRef, h, hlook]
    · simp [resolveCodeRef, h]

/-- C8: a declaration on which the caller-supplied predicate throws is
treated as non-matching — the matching subset, and hence `items`, is what
it would be with that declaration absent — the thrown error is recorded in
`errors`, *exactly one* error is added relative to the registry without
the throwing declaration, and the scan continues over all remaining
declarations (no exception escapes: `resolve` is total). -/
theorem resolve_predicate_isolation (l₁ l₂ : List ExtensionDeclaration)
    (d : ExtensionDeclaration) (p : Predicate) (st : RefStateMap) (e : Err)
    (h : p d = .error e) :
    (scan (l₁ ++ d :: l₂) p).1 = (scan (l₁ ++ l₂) p).1 ∧
    (resolve (l₁ ++ d :: l₂) p st).items = (resolve (l₁ ++ l₂) p st).items ∧
    e ∈ (resolve (l₁ ++ d :: l₂) p st).errors ∧
    (resolve (l₁ ++ d :: l₂) p st).errors.length =
      (resolve (l₁ ++ l₂) p st).errors.length + 1 := by
  have ha := scan_append l₁ (d :: l₂) p
  have hb := scan_append l₁ l₂ p
  have hc := scan_cons_error h l₂
  have h1 : (scan (l₁ ++ d :: l₂) p).1 = (scan (l₁ ++ l₂) p).1 := by
    rw [ha, hb, hc]
  have h2 : (scan (l₁ ++ d :: l₂) p).2 =
      (scan l₁ p).2 ++ e :: (scan l₂ p).2 := by
    rw [ha, hc]
  refine ⟨h1, ?_, ?_, ?_⟩
  · simp only [resolve, h1]
  · simp only [resolve]
    refine List.mem_append.mpr (Or.inl ?_)
    rw [h2]
    simp
  · simp only [resolve]
    rw [h1, h2, hb]
    simp only [List.length_append, List.length_cons]
    omega

/-- Witness for C8: five declarations, the predicate throwing on exactly
the middle one — the matching subset and `items` equal those of the
four-declaration registry without it, the thrown error is recorded,
exactly one error more than without the throwing declaration is present,
and on this input the full `errors` list is exactly `["boom"]`. -/
theorem resolve_predicate_isolation_witness :
    (scan ([wDeclA, wDeclB] ++ wDeclC :: [wDeclD, wDeclE]) wPredThrow2).1 =
      (scan ([wDeclA, wDeclB] ++ [wDeclD, wDeclE]) wPredThrow2).1 ∧
    (resolve ([wDeclA, wDeclB] ++ wDeclC :: [wDeclD, wDeclE]) wPredThrow2
        wStMixed).items =
      (resolve ([wDeclA, wDeclB] ++ [wDeclD, wDeclE]) wPredThrow2
        wStMixed).items ∧
    "boom" ∈ (resolve ([wDeclA, wDeclB] ++ wDeclC :: [wDeclD, wDeclE])
        wPredThrow2 wStMixed).errors ∧
    (resolve ([wDeclA, wDeclB] ++ wDeclC :: [wDeclD, wDeclE]) wPredThrow2
        wStMixed).errors.length =
      (resolve ([wDeclA, wDeclB] ++ [wDeclD, wDeclE]) wPredThrow2
        wStMixed).errors.length + 1 ∧
    (resolve ([wDeclA, wDeclB] ++ wDeclC :: [wDeclD, wDeclE]) wPredThrow2
        wStMixed).errors = ["boom"] := by
  have h := resolve_predicate_isolation [wDeclA, wDeclB] [wDeclD, wDeclE]
    wDeclC wPredThrow2 wStMixed "boom" rfl
  exact ⟨h.1, h.2.1, h.2.2.1, h.2.2.2, by decide⟩

/-- C9: over any event trace (wholesale registry replacements and
reference settlements in any interleaving), the result delivered to the
caller is always the one computed from the *current* registry snapshot and
reference states — a result computed against a superseded snapshot is
never delivered — and every element of a delivered `items` array comes
from a declaration of that single current snapshot, so no `items` array
mixes declarations of two different registry snapshots. -/
theorem resolve_no_stale_snapshots (p : Predicate) (s₀ : ResolverState)
    (events : List Event) (h₀ : s₀.out = resolve s₀.reg p s₀.st) :
    (runEvents p s₀ events).out =
      resolve (runEvents p s₀ events).reg p (runEvents p s₀ events).st ∧
    ∀ x ∈ (runEvents p s₀ events).out.items,
      ∃ d ∈ (runEvents p s₀ events).reg,
        resolveDecl (runEvents p s₀ events).st d = some x := by
  have key : ∀ (evs : List Event) (s : ResolverState),
      s.out = resolve s.reg p s.st →
      (runEvents p s evs).out =
        resolve (runEvents p s evs).reg p (runEvents p s evs).st := by
    intro evs
    induction evs with
    | nil => intro s hs; exact hs
    | cons ev evs ih =>
      intro s _
      exact ih (applyEvent p s ev) (by cases ev <;> rfl)
  refine ⟨key events s₀ h₀, fun x hx => ?_⟩
  rw [key events s₀ h₀] at hx
  exact mem_items_of_resolve hx

/-- Witness for C9: a trace in which the registry is replaced while a
reference is pending and the reference then settles; the delivered output
equals the resolve of the final snapshot. -/
theorem resolve_no_stale_snapshots_witness :
    (runEvents wPredX wS0 wEvents).out =
      resolve (runEvents wPredX wS0 wEvents).reg wPredX
        (runEvents wPredX wS0 wEvents).st :=
  (resolve_no_stale_snapshots wPredX wS0 wEvents rfl).1

/-- C10: `isCreateProject` holds exactly when the declaration's `type` tag
is `console.create-project`, and `isCreateProjectModal` exactly when it is
`console.create-project-modal`; both are pure, total boolean functions of
the `type` tag (they cannot throw), hence valid resolver predicates. -/
theorem create_project_guards_characterize_type (e : ExtensionDeclaration) :
    (isCreateProject e = true ↔ e.type = "console.create-project") ∧
    (isCreateProjectModal e = true ↔ e.type = "console.create-project-modal") := by
  constructor <;> simp [isCreateProject, isCreateProjectModal]

end ConsoleExt
